import Mathlib

/-!
Shallow embedding of the infracost `output` package: cost rollup and
summary engine (breakdowns, totals with nil-vs-zero semantics, summary
building and merging, report assembly, resource sorting).

Modelling conventions:
* `*decimal.Decimal` (arbitrary-precision decimals) become `Option ℚ`;
  `nil` is `none`, a present decimal is `some q` (decimal addition is
  exact, so `ℚ` addition models it faithfully).
* `*int` becomes `Option Int`, `*map[string]int` becomes
  `Option CountMap` where `CountMap` is an association list with the
  usual unique-keys invariant `CountMap.WF` (Go maps always satisfy it).
* Go's `sort.Slice` with a `less` function is modelled by the stable
  `List.insertionSort` over the complement relation `¬ less b a`; any
  output of `sort.Slice` is a permutation sorted in this sense.
* `terraform.HasSupportedProvider` is an external classifier whose code
  is not part of this package; it is passed as a function parameter
  `hsp : String → Bool`.
-/

namespace Infracost

abbrev Decimal := ℚ

/-- `map[string]int` as an association list (entries in insertion order). -/
abbrev CountMap := List (String × Int)

/-- First value stored under key `k`, if any (Go map lookup). -/
def CountMap.find (m : CountMap) (k : String) : Option Int :=
  match m.find? (fun p => p.1 == k) with
  | some p => some p.2
  | none => none

/-- Go map indexing with the zero default: `m[k]`. -/
def CountMap.getD (m : CountMap) (k : String) : Int :=
  (CountMap.find m k).getD 0

/-- The keys of the map, in entry order. -/
def CountMap.keys (m : CountMap) : List String :=
  m.map (fun p => p.1)

/-- `m[k] += v`, inserting the key when absent (Go `m[k] = 0; m[k]++`). -/
def CountMap.addTo (m : CountMap) (k : String) (v : Int) : CountMap :=
  if m.any (fun p => p.1 == k) then
    m.map (fun p => if p.1 == k then (p.1, p.2 + v) else p)
  else
    m ++ [(k, v)]

/-- Well-formedness of the map model: keys are pairwise distinct.
Every Go map satisfies this. -/
@[reducible]
def CountMap.WF (m : CountMap) : Prop :=
  (CountMap.keys m).Nodup

/-- Total value stored under key `k`, duplicate entries included
(coincides with `getD` on well-formed maps). -/
def CountMap.keySum (m : CountMap) (k : String) : Int :=
  ((m.filter (fun p => p.1 == k)).map (fun p => p.2)).sum

/-- Copy `m2` into `m1` entry by entry: `for k, v := range m2 { m1[k] += v }`. -/
def CountMap.mergeInto (m1 m2 : CountMap) : CountMap :=
  m2.foldl (fun r p => CountMap.addTo r p.1 p.2) m1

/-! ## External schema (inputs of the package)

The `schema` package is an external collaborator; these structures hold
exactly the fields the `output` package reads.  Unit labels, quantities
and prices of a cost component are read as already-resolved display
values (`UnitWithMultiplier`, `UnitMultiplier*Quantity`,
`UnitMultiplierPrice`). -/

structure SchemaCostComponent where
  name : String
  unit : String
  hourlyQuantity : Option Decimal
  monthlyQuantity : Option Decimal
  price : Decimal
  hourlyCost : Option Decimal
  monthlyCost : Option Decimal

structure SchemaResource where
  name : String
  resourceType : String
  isSkipped : Bool
  noPrice : Bool
  tags : List (String × String)
  hourlyCost : Option Decimal
  monthlyCost : Option Decimal
  costComponents : List SchemaCostComponent
  subResources : List SchemaResource

/-- Modelled from the spec: opaque per-project metadata, passed through
untouched by the report assembler. -/
abbrev ProjectMetadata := List (String × String)

structure Project where
  name : String
  metadata : Option ProjectMetadata
  resources : List SchemaResource
  hasDiff : Bool
  pastResources : List SchemaResource
  diff : List SchemaResource

/-! ## Output data model -/

structure CostComponent where
  name : String
  unit : String
  hourlyQuantity : Option Decimal
  monthlyQuantity : Option Decimal
  price : Decimal
  hourlyCost : Option Decimal
  monthlyCost : Option Decimal

structure Resource where
  name : String
  tags : List (String × String)
  metadata : List (String × String)
  hourlyCost : Option Decimal
  monthlyCost : Option Decimal
  costComponents : List CostComponent
  subResources : List Resource

structure Breakdown where
  resources : List Resource
  totalHourlyCost : Option Decimal
  totalMonthlyCost : Option Decimal

structure Summary where
  supportedResourceCounts : Option CountMap
  unsupportedResourceCounts : Option CountMap
  totalSupportedResources : Option Int
  totalUnsupportedResources : Option Int
  totalNoPriceResources : Option Int
  totalResources : Option Int

structure SummaryOptions where
  includeUnsupportedProviders : Bool
  onlyFields : List String

structure ProjectResult where
  projectName : String
  projectMetadata : Option ProjectMetadata
  pastBreakdown : Option Breakdown
  breakdown : Option Breakdown
  diff : Option Breakdown
  summary : Option Summary
  fullSummary : Option Summary

structure Root where
  version : String
  resources : List Resource
  totalHourlyCost : Option Decimal
  totalMonthlyCost : Option Decimal
  runID : String
  projectResults : List ProjectResult

def outputVersion : String := "0.1"

/-! ## Resource tree normalizer -/

def outputCostComponent (c : SchemaCostComponent) : CostComponent :=
  { name := c.name
    unit := c.unit
    hourlyQuantity := c.hourlyQuantity
    monthlyQuantity := c.monthlyQuantity
    price := c.price
    hourlyCost := c.hourlyCost
    monthlyCost := c.monthlyCost }

mutual

def outputResource : SchemaResource → Resource
  | ⟨name, _, _, _, tags, hourlyCost, monthlyCost, costComponents, subResources⟩ =>
    { name := name
      metadata := []
      tags := tags
      hourlyCost := hourlyCost
      monthlyCost := monthlyCost
      costComponents := costComponents.map outputCostComponent
      subResources := outputResourceList subResources }

def outputResourceList : List SchemaResource → List Resource
  | [] => []
  | r :: rs => outputResource r :: outputResourceList rs

end

theorem outputResourceList_eq_map (rs : List SchemaResource) :
    outputResourceList rs = rs.map outputResource := by
  induction rs with
  | nil => rfl
  | cons r rs ih => simp [outputResourceList, ih]

/-- `outputResource` unfolded with a plain `List.map` over sub-resources. -/
theorem outputResource_def (r : SchemaResource) :
    outputResource r =
      { name := r.name
        metadata := []
        tags := r.tags
        hourlyCost := r.hourlyCost
        monthlyCost := r.monthlyCost
        costComponents := r.costComponents.map outputCostComponent
        subResources := r.subResources.map outputResource } := by
  cases r
  rw [outputResource, outputResourceList_eq_map]

/-! ## Resource sorter -/

/-- Executable lexicographic string comparison (Go's `<` on strings);
agrees with `String.instLT`, see `strLtB_iff`. -/
def strLtB (a b : String) : Bool :=
  decide (a.toList < b.toList)

theorem strLtB_iff (a b : String) : strLtB a b = true ↔ a < b := by
  rw [String.lt_iff_toList_lt]
  simp [strLtB]

/-- Go map indexing with the empty-string default: `metadata[k]`. -/
def metaVal (md : List (String × String)) (k : String) : String :=
  match md.find? (fun p => p.1 == k) with
  | some p => p.2
  | none => ""

/-- The `less` function passed to `sort.Slice` in `sortResources`. -/
def resourceLess (groupKey : String) (a b : Resource) : Bool :=
  if groupKey == "" then
    strLtB a.name b.name
  else if metaVal a.metadata groupKey == metaVal b.metadata groupKey then
    strLtB a.name b.name
  else
    strLtB (metaVal a.metadata groupKey) (metaVal b.metadata groupKey)

/-- The non-strict order `sort.Slice` leaves the slice sorted by:
`a` may precede `b` iff `¬ less b a`. -/
def resourceLe (groupKey : String) (a b : Resource) : Prop :=
  resourceLess groupKey b a = false

instance (groupKey : String) : DecidableRel (resourceLe groupKey) :=
  fun a b => by unfold resourceLe; infer_instance

/-- `sort.Slice(resources, less)` modelled as a stable sort wrt the
complement of `less`. -/
def sortResources (resources : List Resource) (groupKey : String) : List Resource :=
  resources.insertionSort (resourceLe groupKey)

/-! ## Cost aggregator -/

def decimalZero : Decimal := 0

/-- Loop body of `calculateTotalCosts`: add a resource's non-nil costs to
the running totals (re-seeding a nil running total at zero, as in the
source's inner `if total == nil` checks). -/
def costStep (acc : Option Decimal × Option Decimal) (r : Resource) :
    Option Decimal × Option Decimal :=
  (match r.hourlyCost with
   | none => acc.1
   | some v => some (acc.1.getD decimalZero + v),
   match r.monthlyCost with
   | none => acc.2
   | some v => some (acc.2.getD decimalZero + v))

def calculateTotalCosts (resources : List Resource) :
    Option Decimal × Option Decimal :=
  resources.foldl costStep (some decimalZero, some decimalZero)

/-! ## Breakdown builder -/

def outputBreakdown (resources : List SchemaResource) : Breakdown :=
  let arr := (resources.filter (fun r => !r.isSkipped)).map outputResource
  let arr := sortResources arr ""
  -- Go: totalMonthlyCost, totalHourlyCost := calculateTotalCosts(arr)
  -- (the pair returned is (hourly, monthly), so the names are swapped here
  -- and swapped back in the struct literal below, exactly as in the source)
  let totalMonthlyCost := (calculateTotalCosts arr).1
  let totalHourlyCost := (calculateTotalCosts arr).2
  { resources := arr
    totalHourlyCost := totalMonthlyCost
    totalMonthlyCost := totalHourlyCost }

/-! ## Summary builder -/

def contains : List String → String → Bool
  | [], _ => false
  | a :: t, e => if a == e then true else contains t e

/-- Classification accumulator threaded through `BuildSummary`'s loop. -/
structure SummaryAcc where
  supportedResourceCounts : CountMap
  unsupportedResourceCounts : CountMap
  totalSupportedResources : Int
  totalUnsupportedResources : Int
  totalNoPriceResources : Int

def buildSummaryStep (hsp : String → Bool) (opts : SummaryOptions)
    (acc : SummaryAcc) (r : SchemaResource) : SummaryAcc :=
  if !opts.includeUnsupportedProviders && !hsp r.resourceType then
    acc
  else if r.noPrice then
    { acc with totalNoPriceResources := acc.totalNoPriceResources + 1 }
  else if r.isSkipped then
    { acc with
      totalUnsupportedResources := acc.totalUnsupportedResources + 1
      unsupportedResourceCounts :=
        CountMap.addTo acc.unsupportedResourceCounts r.resourceType 1 }
  else
    { acc with
      totalSupportedResources := acc.totalSupportedResources + 1
      supportedResourceCounts :=
        CountMap.addTo acc.supportedResourceCounts r.resourceType 1 }

def BuildSummary (hsp : String → Bool) (resources : List SchemaResource)
    (opts : SummaryOptions) : Summary :=
  let acc := resources.foldl (buildSummaryStep hsp opts) ⟨[], [], 0, 0, 0⟩
  let totalResources : Int := resources.length
  { supportedResourceCounts :=
      if contains opts.onlyFields "SupportedResourceCounts" || opts.onlyFields.length == 0 then
        some acc.supportedResourceCounts
      else none
    unsupportedResourceCounts :=
      if contains opts.onlyFields "UnsupportedResourceCounts" || opts.onlyFields.length == 0 then
        some acc.unsupportedResourceCounts
      else none
    totalSupportedResources :=
      if contains opts.onlyFields "TotalSupportedResources" || opts.onlyFields.length == 0 then
        some acc.totalSupportedResources
      else none
    totalUnsupportedResources :=
      if contains opts.onlyFields "TotalUnsupportedResources" || opts.onlyFields.length == 0 then
        some acc.totalUnsupportedResources
      else none
    totalNoPriceResources :=
      if contains opts.onlyFields "TotalNoPriceResources" || opts.onlyFields.length == 0 then
        some acc.totalNoPriceResources
      else none
    totalResources :=
      if contains opts.onlyFields "Total" || opts.onlyFields.length == 0 then
        some totalResources
      else none }

/-! ## Summary merger -/

def mergeCounts (c1 c2 : Option CountMap) : Option CountMap :=
  match c1, c2 with
  | none, none => none
  | _, _ =>
    let res : CountMap := c1.getD []
    some (CountMap.mergeInto res (c2.getD []))

def addIntPtrs (i1 i2 : Option Int) : Option Int :=
  match i1, i2 with
  | none, none => none
  | _, _ => some (i1.getD 0 + i2.getD 0)

def mergeSummariesStep (merged : Summary) (s : Option Summary) : Summary :=
  match s with
  | none => merged
  | some s =>
    { supportedResourceCounts :=
        mergeCounts merged.supportedResourceCounts s.supportedResourceCounts
      unsupportedResourceCounts :=
        mergeCounts merged.unsupportedResourceCounts s.unsupportedResourceCounts
      totalSupportedResources :=
        addIntPtrs merged.totalSupportedResources s.totalSupportedResources
      totalUnsupportedResources :=
        addIntPtrs merged.totalUnsupportedResources s.totalUnsupportedResources
      totalNoPriceResources :=
        addIntPtrs merged.totalNoPriceResources s.totalNoPriceResources
      totalResources := addIntPtrs merged.totalResources s.totalResources }

def emptySummary : Summary := ⟨none, none, none, none, none, none⟩

def MergeSummaries (summaries : List (Option Summary)) : Summary :=
  summaries.foldl mergeSummariesStep emptySummary

/-! ## Report assembler -/

/-- One step of the report-wide total accumulation (the
`if breakdown.Total*Cost != nil { if total == nil { total = zero };
total = total.Add(...) }` pattern). -/
def accCost (running contrib : Option Decimal) : Option Decimal :=
  match contrib with
  | none => running
  | some v => some (running.getD decimalZero + v)

/-- State threaded through `ToOutputFormat`'s project loop. -/
structure AssembleAcc where
  outProjectResults : List ProjectResult
  outResources : List Resource
  totalHourlyCost : Option Decimal
  totalMonthlyCost : Option Decimal

/-- The `ProjectResult` assembled for one project. -/
def assembleProjectResult (hsp : String → Bool) (project : Project) : ProjectResult :=
  { projectName := project.name
    projectMetadata := project.metadata
    pastBreakdown :=
      if project.hasDiff then some (outputBreakdown project.pastResources) else none
    breakdown := some (outputBreakdown project.resources)
    diff := if project.hasDiff then some (outputBreakdown project.diff) else none
    summary :=
      some (BuildSummary hsp project.resources ⟨false, ["UnsupportedResourceCounts"]⟩)
    fullSummary := some (BuildSummary hsp project.resources ⟨true, []⟩) }

def toOutputFormatStep (hsp : String → Bool) (acc : AssembleAcc)
    (project : Project) : AssembleAcc :=
  let breakdown := outputBreakdown project.resources
  { outProjectResults := acc.outProjectResults ++ [assembleProjectResult hsp project]
    outResources := acc.outResources ++ breakdown.resources
    totalHourlyCost := accCost acc.totalHourlyCost breakdown.totalHourlyCost
    totalMonthlyCost := accCost acc.totalMonthlyCost breakdown.totalMonthlyCost }

def ToOutputFormat (hsp : String → Bool) (projects : List Project) : Root :=
  let acc := projects.foldl (toOutputFormatStep hsp) ⟨[], [], none, none⟩
  { version := outputVersion
    resources := sortResources acc.outResources ""
    totalHourlyCost := acc.totalHourlyCost
    totalMonthlyCost := acc.totalMonthlyCost
    runID := ""
    projectResults := acc.outProjectResults }

def MergedSummary (r : Root) : Summary :=
  MergeSummaries (r.projectResults.map (fun pr => pr.summary))

def MergedFullSummary (r : Root) : Summary :=
  MergeSummaries (r.projectResults.map (fun pr => pr.fullSummary))

/-! ## Unsupported-resources message -/

def watchStarLine : String :=
  "Please watch/star https://github.com/infracost/infracost as new resources are added regularly."

def unsupportedResourcesMessage (r : Root) (showSkipped : Bool) : String :=
  let summary := MergedSummary r
  match summary.unsupportedResourceCounts with
  | none => ""
  | some counts =>
    if counts.length == 0 then ""
    else
      let unsupportedTypeCount := counts.length
      let unsupportedMsg :=
        if unsupportedTypeCount == 1 then
          "resource type wasn\x27t estimated as it\x27s not supported yet"
        else
          "resource types weren\x27t estimated as they\x27re not supported yet"
      let showSkippedMsg := if showSkipped then "" else ", rerun with --show-skipped to see"
      let msg := toString unsupportedTypeCount ++ " " ++ unsupportedMsg ++
        showSkippedMsg ++ ".\n" ++ watchStarLine
      if showSkipped then
        counts.foldl (fun m p => m ++ "\n" ++ toString p.2 ++ " x " ++ p.1) msg
      else
        msg

/-! ## CountMap lemmas -/

theorem CountMap.getD_nil (k : String) : CountMap.getD [] k = 0 := rfl

theorem CountMap.getD_cons (a : String) (b : Int) (m : CountMap) (k : String) :
    CountMap.getD ((a, b) :: m) k = if a = k then b else CountMap.getD m k := by
  simp only [CountMap.getD, CountMap.find, List.find?_cons]
  by_cases h : a = k
  · subst h
    simp
  · rw [if_neg h]
    have hb : ((a, b).1 == k) = false := by simpa using h
    rw [hb]

theorem CountMap.keys_nil : CountMap.keys [] = [] := rfl

theorem CountMap.keys_cons (a : String) (b : Int) (m : CountMap) :
    CountMap.keys ((a, b) :: m) = a :: CountMap.keys m := rfl

theorem CountMap.mem_keys_iff_any (m : CountMap) (k : String) :
    m.any (fun p => p.1 == k) = true ↔ k ∈ CountMap.keys m := by
  induction m with
  | nil => simp [CountMap.keys_nil]
  | cons p t ih =>
    cases p with
    | mk a b =>
      rw [CountMap.keys_cons]
      simp only [List.any_cons, Bool.or_eq_true, beq_iff_eq, List.mem_cons, ih]
      constructor
      · rintro (rfl | h)
        · exact Or.inl rfl
        · exact Or.inr h
      · rintro (rfl | h)
        · exact Or.inl rfl
        · exact Or.inr h

theorem CountMap.getD_eq_zero_of_not_any (m : CountMap) (k : String)
    (h : m.any (fun p => p.1 == k) = false) : CountMap.getD m k = 0 := by
  induction m with
  | nil => rfl
  | cons p t ih =>
    cases p with
    | mk a b =>
      simp only [List.any_cons, Bool.or_eq_false_iff, beq_eq_false_iff_ne, ne_eq] at h
      rw [CountMap.getD_cons, if_neg h.1, ih (by simpa using h.2)]

theorem CountMap.getD_map_add_ne (m : CountMap) (k : String) (v : Int) (k' : String)
    (h : k' ≠ k) :
    CountMap.getD
        (m.map (fun p => if p.1 == k then (p.1, p.2 + v) else p)) k' =
      CountMap.getD m k' := by
  induction m with
  | nil => rfl
  | cons p t ih =>
    cases p with
    | mk a b =>
      simp only [List.map_cons]
      by_cases hak : a = k
      · rw [if_pos (by simpa using hak)]
        have hne : ¬ a = k' := by rw [hak]; exact fun hh => h hh.symm
        rw [CountMap.getD_cons, CountMap.getD_cons, ih, if_neg hne, if_neg hne]
      · rw [if_neg (by simpa using hak)]
        rw [CountMap.getD_cons, CountMap.getD_cons, ih]

theorem CountMap.getD_map_add_mem (m : CountMap) (k : String) (v : Int)
    (h : m.any (fun p => p.1 == k) = true) :
    CountMap.getD
        (m.map (fun p => if p.1 == k then (p.1, p.2 + v) else p)) k =
      CountMap.getD m k + v := by
  induction m with
  | nil => simp at h
  | cons p t ih =>
    cases p with
    | mk a b =>
      simp only [List.map_cons]
      by_cases hak : a = k
      · rw [if_pos (by simpa using hak)]
        rw [CountMap.getD_cons, CountMap.getD_cons, if_pos hak, if_pos hak]
      · rw [if_neg (by simpa using hak)]
        simp only [List.any_cons, Bool.or_eq_true, beq_iff_eq] at h
        rcases h with h | h
        · exact absurd h hak
        · rw [CountMap.getD_cons, CountMap.getD_cons, if_neg hak, if_neg hak, ih h]

theorem CountMap.getD_append_not_mem (m1 m2 : CountMap) (k : String)
    (h : m1.any (fun p => p.1 == k) = false) :
    CountMap.getD (m1 ++ m2) k = CountMap.getD m2 k := by
  induction m1 with
  | nil => rfl
  | cons p t ih =>
    cases p with
    | mk a b =>
      simp only [List.any_cons, Bool.or_eq_false_iff, beq_eq_false_iff_ne, ne_eq] at h
      rw [List.cons_append, CountMap.getD_cons, if_neg h.1, ih (by simpa using h.2)]

theorem CountMap.getD_append_left (m1 m2 : CountMap) (k : String)
    (h : m1.any (fun p => p.1 == k) = true) :
    CountMap.getD (m1 ++ m2) k = CountMap.getD m1 k := by
  induction m1 with
  | nil => simp at h
  | cons p t ih =>
    cases p with
    | mk a b =>
      by_cases hak : a = k
      · rw [List.cons_append, CountMap.getD_cons, if_pos hak, CountMap.getD_cons, if_pos hak]
      · simp only [List.any_cons, Bool.or_eq_true, beq_iff_eq] at h
        rcases h with h | h
        · exact absurd h hak
        · rw [List.cons_append, CountMap.getD_cons, if_neg hak, CountMap.getD_cons,
            if_neg hak, ih h]

/-- Fundamental lookup law for `addTo`. -/
theorem CountMap.getD_addTo (m : CountMap) (k : String) (v : Int) (k' : String) :
    CountMap.getD (CountMap.addTo m k v) k' =
      CountMap.getD m k' + if k' = k then v else 0 := by
  unfold CountMap.addTo
  by_cases hmem : m.any (fun p => p.1 == k) = true
  · rw [if_pos hmem]
    by_cases hk : k' = k
    · subst hk
      rw [CountMap.getD_map_add_mem m k' v hmem, if_pos rfl]
    · rw [CountMap.getD_map_add_ne m k v k' hk, if_neg hk, add_zero]
  · rw [if_neg hmem]
    rw [Bool.not_eq_true] at hmem
    by_cases hk : k' = k
    · subst hk
      rw [CountMap.getD_append_not_mem m _ k' hmem, if_pos rfl,
        CountMap.getD_eq_zero_of_not_any m k' hmem]
      rw [CountMap.getD_cons, if_pos rfl, zero_add]
    · rw [if_neg hk, add_zero]
      rcases hmem2 : m.any (fun p => p.1 == k') with _ | _
      · rw [CountMap.getD_append_not_mem m _ k' hmem2,
          CountMap.getD_eq_zero_of_not_any m k' hmem2]
        rw [CountMap.getD_cons, if_neg (Ne.symm hk), CountMap.getD_nil]
      · rw [CountMap.getD_append_left m _ k' hmem2]

theorem CountMap.keys_map_add (m : CountMap) (k : String) (v : Int) :
    CountMap.keys (m.map (fun p => if p.1 == k then (p.1, p.2 + v) else p)) =
      CountMap.keys m := by
  unfold CountMap.keys
  rw [List.map_map]
  congr 1
  funext p
  show (if p.1 == k then (p.1, p.2 + v) else p).1 = p.1
  split <;> rfl

theorem CountMap.keys_addTo (m : CountMap) (k : String) (v : Int) (k' : String) :
    k' ∈ CountMap.keys (CountMap.addTo m k v) ↔
      k' ∈ CountMap.keys m ∨ k' = k := by
  unfold CountMap.addTo
  by_cases hmem : m.any (fun p => p.1 == k) = true
  · rw [if_pos hmem, CountMap.keys_map_add]
    rw [CountMap.mem_keys_iff_any] at hmem
    constructor
    · exact fun h => Or.inl h
    · rintro (h | rfl)
      · exact h
      · exact hmem
  · rw [if_neg hmem]
    unfold CountMap.keys
    simp

theorem CountMap.WF_addTo (m : CountMap) (k : String) (v : Int) (h : CountMap.WF m) :
    CountMap.WF (CountMap.addTo m k v) := by
  unfold CountMap.addTo CountMap.WF
  by_cases hmem : m.any (fun p => p.1 == k) = true
  · rw [if_pos hmem, CountMap.keys_map_add]
    exact h
  · rw [if_neg hmem]
    have hnot : k ∉ CountMap.keys m := by
      rw [← CountMap.mem_keys_iff_any]
      simp [hmem]
    unfold CountMap.keys
    simp only [List.map_append, List.map_cons, List.map_nil]
    rw [List.nodup_append]
    exact ⟨h, List.nodup_singleton k, by simpa [CountMap.keys] using hnot⟩

theorem CountMap.keySum_nil (k : String) : CountMap.keySum [] k = 0 := rfl

theorem CountMap.keySum_cons (a : String) (b : Int) (m : CountMap) (k : String) :
    CountMap.keySum ((a, b) :: m) k =
      (if a = k then b else 0) + CountMap.keySum m k := by
  unfold CountMap.keySum
  by_cases h : a = k
  · rw [List.filter_cons_of_pos (by simpa using h), if_pos h]
    simp
  · rw [List.filter_cons_of_neg (by simpa using h), if_neg h, zero_add]

theorem CountMap.keySum_eq_getD (m : CountMap) (k : String) (h : CountMap.WF m) :
    CountMap.keySum m k = CountMap.getD m k := by
  induction m with
  | nil => rfl
  | cons p t ih =>
    cases p with
    | mk a b =>
      have hwf : CountMap.WF t := by
        unfold CountMap.WF at h ⊢
        rw [CountMap.keys_cons] at h
        exact h.of_cons
      have hnot : a ∉ CountMap.keys t := by
        unfold CountMap.WF at h
        rw [CountMap.keys_cons] at h
        exact (List.nodup_cons.mp h).1
      rw [CountMap.keySum_cons, CountMap.getD_cons]
      by_cases hak : a = k
      · subst hak
        rw [if_pos rfl, if_pos rfl]
        have : CountMap.keySum t a = 0 := by
          unfold CountMap.keySum
          have : t.filter (fun p => p.1 == a) = [] := by
            rw [List.filter_eq_nil_iff]
            intro p hp hpk
            exact hnot (by
              simp only [beq_iff_eq] at hpk
              rw [← hpk]
              exact List.mem_map_of_mem (fun q => q.1) hp)
          rw [this]
          rfl
        rw [this, add_zero]
      · rw [if_neg hak, if_neg hak, zero_add, ih hwf]

theorem CountMap.mergeInto_nil_right (m : CountMap) : CountMap.mergeInto m [] = m := rfl

theorem CountMap.mergeInto_cons (m1 : CountMap) (a : String) (b : Int) (m2 : CountMap) :
    CountMap.mergeInto m1 ((a, b) :: m2) =
      CountMap.mergeInto (CountMap.addTo m1 a b) m2 := rfl

theorem CountMap.getD_mergeInto (m1 m2 : CountMap) (k : String) :
    CountMap.getD (CountMap.mergeInto m1 m2) k =
      CountMap.getD m1 k + CountMap.keySum m2 k := by
  induction m2 generalizing m1 with
  | nil => rw [CountMap.mergeInto_nil_right, CountMap.keySum_nil, add_zero]
  | cons p t ih =>
    cases p with
    | mk a b =>
      rw [CountMap.mergeInto_cons, ih, CountMap.getD_addTo, CountMap.keySum_cons]
      have : (if k = a then b else 0) = (if a = k then b else 0) := by
        by_cases h : a = k
        · rw [if_pos h, if_pos h.symm]
        · rw [if_neg h, if_neg (fun hh => h hh.symm)]
      rw [this]
      ring

theorem CountMap.mem_keys_mergeInto (m1 m2 : CountMap) (k : String) :
    k ∈ CountMap.keys (CountMap.mergeInto m1 m2) ↔
      k ∈ CountMap.keys m1 ∨ k ∈ CountMap.keys m2 := by
  induction m2 generalizing m1 with
  | nil => simp [CountMap.mergeInto_nil_right, CountMap.keys_nil]
  | cons p t ih =>
    cases p with
    | mk a b =>
      rw [CountMap.mergeInto_cons, ih, CountMap.keys_addTo, CountMap.keys_cons]
      simp only [List.mem_cons]
      constructor
      · rintro ((h | rfl) | h)
        · exact Or.inl h
        · exact Or.inr (Or.inl rfl)
        · exact Or.inr (Or.inr h)
      · rintro (h | (rfl | h))
        · exact Or.inl (Or.inl h)
        · exact Or.inl (Or.inr rfl)
        · exact Or.inr h

theorem CountMap.WF_mergeInto (m1 m2 : CountMap) (h : CountMap.WF m1) :
    CountMap.WF (CountMap.mergeInto m1 m2) := by
  induction m2 generalizing m1 with
  | nil => exact h
  | cons p t ih =>
    cases p with
    | mk a b =>
      rw [CountMap.mergeInto_cons]
      exact ih _ (CountMap.WF_addTo m1 a b h)

theorem CountMap.mergeInto_disjoint (m2 m1 : CountMap)
    (hwf : (CountMap.keys m2).Nodup)
    (hdis : ∀ x ∈ CountMap.keys m2, x ∉ CountMap.keys m1) :
    CountMap.mergeInto m1 m2 = m1 ++ m2 := by
  induction m2 generalizing m1 with
  | nil => simp [CountMap.mergeInto_nil_right]
  | cons p t ih =>
    cases p with
    | mk a b =>
      rw [CountMap.keys_cons] at hwf hdis
      rw [CountMap.mergeInto_cons]
      have hany : ¬ m1.any (fun p => p.1 == a) = true := by
        rw [CountMap.mem_keys_iff_any]
        exact hdis a (List.mem_cons_self a _)
      have hstep : CountMap.addTo m1 a b = m1 ++ [(a, b)] := by
        unfold CountMap.addTo
        rw [if_neg hany]
      rw [hstep, ih (m1 ++ [(a, b)]) (List.nodup_cons.mp hwf).2]
      · rw [List.append_assoc]
        rfl
      · intro x hx
        have hxa : x ≠ a := by
          intro hh
          subst hh
          exact (List.nodup_cons.mp hwf).1 hx
        intro hmem
        unfold CountMap.keys at hmem
        rw [List.map_append] at hmem
        rcases List.mem_append.mp hmem with hm | hm
        · exact hdis x (List.mem_cons_of_mem a hx) hm
        · simp at hm
          exact hxa hm

theorem CountMap.mergeInto_nil_left (m : CountMap) (h : CountMap.WF m) :
    CountMap.mergeInto [] m = m := by
  rw [CountMap.mergeInto_disjoint m [] h (by intro x _; simp [CountMap.keys_nil])]
  rfl

/-! ## Scalar and map merge fold lemmas -/

/-- Specification-side description of scalar merging (from the spec:
`nil + nil = nil`, a nil side treated as absent, result present whenever
at least one input was present, present values added). -/
def scalarMergeSpec (l : List (Option Int)) : Option Int :=
  if l.all (fun o => o.isNone) then none else some ((l.filterMap id).sum)

theorem addIntPtrs_some_left (a : Int) (o : Option Int) :
    addIntPtrs (some a) o = some (a + o.getD 0) := by
  cases o <;> rfl

theorem foldl_addIntPtrs_some (l : List (Option Int)) (a : Int) :
    l.foldl addIntPtrs (some a) = some (a + (l.filterMap id).sum) := by
  induction l generalizing a with
  | nil => simp
  | cons o t ih =>
    cases o with
    | none =>
      rw [List.foldl_cons]
      show List.foldl addIntPtrs (some (a + 0)) t = _
      rw [add_zero, ih]
      simp
    | some b =>
      rw [List.foldl_cons]
      show List.foldl addIntPtrs (some (a + b)) t = _
      rw [ih]
      simp [add_assoc]

theorem foldl_addIntPtrs_none (l : List (Option Int)) :
    l.foldl addIntPtrs none = scalarMergeSpec l := by
  induction l with
  | nil => rfl
  | cons o t ih =>
    cases o with
    | none =>
      rw [List.foldl_cons]
      show List.foldl addIntPtrs none t = _
      rw [ih]
      unfold scalarMergeSpec
      simp
    | some b =>
      rw [List.foldl_cons]
      show List.foldl addIntPtrs (some (0 + b)) t = _
      rw [foldl_addIntPtrs_some]
      unfold scalarMergeSpec
      simp

/-- The map-level fold underlying repeated `mergeCounts` once an
accumulator map exists. -/
def countsFold (l : List (Option CountMap)) (r : CountMap) : CountMap :=
  l.foldl (fun r o => CountMap.mergeInto r (o.getD [])) r

theorem mergeCounts_some_left (r : CountMap) (o : Option CountMap) :
    mergeCounts (some r) o = some (CountMap.mergeInto r (o.getD [])) := by
  cases o <;> rfl

theorem foldl_mergeCounts_some (l : List (Option CountMap)) (r : CountMap) :
    l.foldl mergeCounts (some r) = some (countsFold l r) := by
  induction l generalizing r with
  | nil => rfl
  | cons o t ih =>
    rw [List.foldl_cons, mergeCounts_some_left, ih]
    rfl

theorem foldl_mergeCounts_none (l : List (Option CountMap)) :
    l.foldl mergeCounts none =
      if l.all (fun o => o.isNone) then none else some (countsFold l []) := by
  induction l with
  | nil => rfl
  | cons o t ih =>
    cases o with
    | none =>
      rw [List.foldl_cons]
      show List.foldl mergeCounts none t = _
      rw [ih]
      simp only [List.all_cons, Option.isNone_none, Bool.true_and]
      rcases h : t.all (fun o => o.isNone) with _ | _
      · rw [if_neg (by simp [h]), if_neg (by simp [h])]
        rfl
      · rw [if_pos rfl, if_pos rfl]
    | some m =>
      rw [List.foldl_cons]
      show List.foldl mergeCounts (some (CountMap.mergeInto [] m)) t = _
      rw [foldl_mergeCounts_some]
      simp only [List.all_cons, Option.isNone_some, Bool.false_and, if_neg]
      rfl

theorem getD_countsFold (l : List (Option CountMap)) (r : CountMap) (k : String) :
    CountMap.getD (countsFold l r) k =
      CountMap.getD r k + (l.map (fun o => CountMap.keySum (o.getD []) k)).sum := by
  induction l generalizing r with
  | nil => simp [countsFold]
  | cons o t ih =>
    show CountMap.getD (countsFold t (CountMap.mergeInto r (o.getD []))) k = _
    rw [ih, CountMap.getD_mergeInto]
    simp [add_assoc]

theorem mem_keys_countsFold (l : List (Option CountMap)) (r : CountMap) (k : String) :
    k ∈ CountMap.keys (countsFold l r) ↔
      k ∈ CountMap.keys r ∨ ∃ o ∈ l, k ∈ CountMap.keys (o.getD []) := by
  induction l generalizing r with
  | nil => simp [countsFold]
  | cons o t ih =>
    show k ∈ CountMap.keys (countsFold t (CountMap.mergeInto r (o.getD []))) ↔ _
    rw [ih, CountMap.mem_keys_mergeInto]
    simp only [List.mem_cons]
    constructor
    · rintro ((h | h) | ⟨o2, ho2, h⟩)
      · exact Or.inl h
      · exact Or.inr ⟨o, Or.inl rfl, h⟩
      · exact Or.inr ⟨o2, Or.inr ho2, h⟩
    · rintro (h | ⟨o2, (rfl | ho2), h⟩)
      · exact Or.inl (Or.inl h)
      · exact Or.inl (Or.inr h)
      · exact Or.inr ⟨o2, ho2, h⟩

/-! ## MergeSummaries characterization -/

theorem foldl_mergeSummariesStep (ss : List (Option Summary)) (acc : Summary) :
    ss.foldl mergeSummariesStep acc =
      { supportedResourceCounts :=
          ((ss.filterMap id).map (fun s => s.supportedResourceCounts)).foldl
            mergeCounts acc.supportedResourceCounts
        unsupportedResourceCounts :=
          ((ss.filterMap id).map (fun s => s.unsupportedResourceCounts)).foldl
            mergeCounts acc.unsupportedResourceCounts
        totalSupportedResources :=
          ((ss.filterMap id).map (fun s => s.totalSupportedResources)).foldl
            addIntPtrs acc.totalSupportedResources
        totalUnsupportedResources :=
          ((ss.filterMap id).map (fun s => s.totalUnsupportedResources)).foldl
            addIntPtrs acc.totalUnsupportedResources
        totalNoPriceResources :=
          ((ss.filterMap id).map (fun s => s.totalNoPriceResources)).foldl
            addIntPtrs acc.totalNoPriceResources
        totalResources :=
          ((ss.filterMap id).map (fun s => s.totalResources)).foldl
            addIntPtrs acc.totalResources } := by
  induction ss generalizing acc with
  | nil => rfl
  | cons o t ih =>
    cases o with
    | none =>
      rw [List.foldl_cons]
      show t.foldl mergeSummariesStep acc = _
      rw [ih]
      rfl
    | some s =>
      rw [List.foldl_cons, ih]
      rfl

/-- Well-formedness of the maps stored in a summary (all Go maps are
well-formed in this sense). -/
@[reducible]
def Summary.WF (s : Summary) : Prop :=
  CountMap.WF (s.supportedResourceCounts.getD []) ∧
    CountMap.WF (s.unsupportedResourceCounts.getD [])

theorem foldl_mergeCounts_none_eq_none_iff (l : List (Option CountMap)) :
    l.foldl mergeCounts none = none ↔ ∀ o ∈ l, o = none := by
  rw [foldl_mergeCounts_none]
  by_cases h : l.all (fun o => o.isNone) = true
  · rw [if_pos h]
    simp only [List.all_eq_true, Option.isNone_iff_eq_none] at h
    exact iff_of_true rfl h
  · rw [if_neg h]
    simp only [List.all_eq_true, Option.isNone_iff_eq_none] at h
    exact iff_of_false (by simp) h

theorem foldl_mergeCounts_eq_some (l : List (Option CountMap)) (M : CountMap)
    (h : l.foldl mergeCounts none = some M) : M = countsFold l [] := by
  rw [foldl_mergeCounts_none] at h
  by_cases hall : l.all (fun o => o.isNone) = true
  · rw [if_pos hall] at h
    cases h
  · rw [if_neg hall] at h
    exact (Option.some.inj h).symm

/-- C2: field-by-field characterization of `MergeSummaries`: each field of
the merged summary is nil iff it is nil in every non-nil input; a present
scalar field is the sum of the present input values (nil sides absent,
not zero-and-present); a present map field has the union of the present
input maps' keys with counts for shared keys added (a missing key
counting as zero for that side only); merging a singleton non-nil
summary is the identity (modulo map copy); merging only nils yields the
all-nil summary. -/
theorem mergeSummaries_spec :
    (∀ ss : List (Option Summary),
      (MergeSummaries ss).totalSupportedResources =
          scalarMergeSpec ((ss.filterMap id).map (fun s => s.totalSupportedResources))
        ∧ (MergeSummaries ss).totalUnsupportedResources =
          scalarMergeSpec ((ss.filterMap id).map (fun s => s.totalUnsupportedResources))
        ∧ (MergeSummaries ss).totalNoPriceResources =
          scalarMergeSpec ((ss.filterMap id).map (fun s => s.totalNoPriceResources))
        ∧ (MergeSummaries ss).totalResources =
          scalarMergeSpec ((ss.filterMap id).map (fun s => s.totalResources))
        ∧ ((MergeSummaries ss).supportedResourceCounts = none ↔
            ∀ s ∈ ss.filterMap id, s.supportedResourceCounts = none)
        ∧ ((MergeSummaries ss).unsupportedResourceCounts = none ↔
            ∀ s ∈ ss.filterMap id, s.unsupportedResourceCounts = none)
        ∧ (∀ M, (MergeSummaries ss).supportedResourceCounts = some M →
            (∀ s ∈ ss.filterMap id, CountMap.WF (s.supportedResourceCounts.getD [])) →
            ∀ k, CountMap.getD M k =
              ((ss.filterMap id).map
                (fun s => CountMap.getD (s.supportedResourceCounts.getD []) k)).sum)
        ∧ (∀ M, (MergeSummaries ss).unsupportedResourceCounts = some M →
            (∀ s ∈ ss.filterMap id, CountMap.WF (s.unsupportedResourceCounts.getD [])) →
            ∀ k, CountMap.getD M k =
              ((ss.filterMap id).map
                (fun s => CountMap.getD (s.unsupportedResourceCounts.getD []) k)).sum)
        ∧ (∀ M, (MergeSummaries ss).supportedResourceCounts = some M →
            ∀ k, k ∈ CountMap.keys M ↔
              ∃ s ∈ ss.filterMap id,
                k ∈ CountMap.keys (s.supportedResourceCounts.getD []))
        ∧ (∀ M, (MergeSummaries ss).unsupportedResourceCounts = some M →
            ∀ k, k ∈ CountMap.keys M ↔
              ∃ s ∈ ss.filterMap id,
                k ∈ CountMap.keys (s.unsupportedResourceCounts.getD [])))
    ∧ (∀ s : Summary, Summary.WF s → MergeSummaries [some s] = s)
    ∧ (∀ ss : List (Option Summary), (∀ x ∈ ss, x = none) →
        MergeSummaries ss = emptySummary) := by
  refine ⟨fun ss => ?_, fun s hWF => ?_, fun ss => ?_⟩
  · refine ⟨?_, ?_, ?_, ?_, ?_, ?_, ?_, ?_, ?_, ?_⟩
    · show (ss.foldl mergeSummariesStep emptySummary).totalSupportedResources = _
      rw [foldl_mergeSummariesStep]
      exact foldl_addIntPtrs_none _
    · show (ss.foldl mergeSummariesStep emptySummary).totalUnsupportedResources = _
      rw [foldl_mergeSummariesStep]
      exact foldl_addIntPtrs_none _
    · show (ss.foldl mergeSummariesStep emptySummary).totalNoPriceResources = _
      rw [foldl_mergeSummariesStep]
      exact foldl_addIntPtrs_none _
    · show (ss.foldl mergeSummariesStep emptySummary).totalResources = _
      rw [foldl_mergeSummariesStep]
      exact foldl_addIntPtrs_none _
    · show (ss.foldl mergeSummariesStep emptySummary).supportedResourceCounts = none ↔ _
      rw [foldl_mergeSummariesStep]
      show ((ss.filterMap id).map (fun s => s.supportedResourceCounts)).foldl
        mergeCounts none = none ↔ _
      rw [foldl_mergeCounts_none_eq_none_iff]
      constructor
      · intro h s hs
        exact h _ (List.mem_map_of_mem _ hs)
      · intro h o ho
        obtain ⟨s, hs, rfl⟩ := List.mem_map.mp ho
        exact h s hs
    · show (ss.foldl mergeSummariesStep emptySummary).unsupportedResourceCounts = none ↔ _
      rw [foldl_mergeSummariesStep]
      show ((ss.filterMap id).map (fun s => s.unsupportedResourceCounts)).foldl
        mergeCounts none = none ↔ _
      rw [foldl_mergeCounts_none_eq_none_iff]
      constructor
      · intro h s hs
        exact h _ (List.mem_map_of_mem _ hs)
      · intro h o ho
        obtain ⟨s, hs, rfl⟩ := List.mem_map.mp ho
        exact h s hs
    · intro M hM hwf k
      rw [show (MergeSummaries ss).supportedResourceCounts =
          ((ss.filterMap id).map (fun s => s.supportedResourceCounts)).foldl
            mergeCounts none from by rw [MergeSummaries, foldl_mergeSummariesStep]; rfl] at hM
      rw [foldl_mergeCounts_eq_some _ M hM, getD_countsFold, CountMap.getD_nil, zero_add,
        List.map_map]
      apply congrArg
      apply List.map_congr_left
      intro s hs
      exact CountMap.keySum_eq_getD _ k (hwf s hs)
    · intro M hM hwf k
      rw [show (MergeSummaries ss).unsupportedResourceCounts =
          ((ss.filterMap id).map (fun s => s.unsupportedResourceCounts)).foldl
            mergeCounts none from by rw [MergeSummaries, foldl_mergeSummariesStep]; rfl] at hM
      rw [foldl_mergeCounts_eq_some _ M hM, getD_countsFold, CountMap.getD_nil, zero_add,
        List.map_map]
      apply congrArg
      apply List.map_congr_left
      intro s hs
      exact CountMap.keySum_eq_getD _ k (hwf s hs)
    · intro M hM k
      rw [show (MergeSummaries ss).supportedResourceCounts =
          ((ss.filterMap id).map (fun s => s.supportedResourceCounts)).foldl
            mergeCounts none from by rw [MergeSummaries, foldl_mergeSummariesStep]; rfl] at hM
      rw [foldl_mergeCounts_eq_some _ M hM, mem_keys_countsFold]
      simp only [CountMap.keys_nil, List.not_mem_nil, false_or, List.mem_map]
      constructor
      · rintro ⟨o, ⟨t, ht, rfl⟩, h⟩
        exact ⟨t, ht, h⟩
      · rintro ⟨t, ht, h⟩
        exact ⟨t.supportedResourceCounts, ⟨t, ht, rfl⟩, h⟩
    · intro M hM k
      rw [show (MergeSummaries ss).unsupportedResourceCounts =
          ((ss.filterMap id).map (fun s => s.unsupportedResourceCounts)).foldl
            mergeCounts none from by rw [MergeSummaries, foldl_mergeSummariesStep]; rfl] at hM
      rw [foldl_mergeCounts_eq_some _ M hM, mem_keys_countsFold]
      simp only [CountMap.keys_nil, List.not_mem_nil, false_or, List.mem_map]
      constructor
      · rintro ⟨o, ⟨t, ht, rfl⟩, h⟩
        exact ⟨t, ht, h⟩
      · rintro ⟨t, ht, h⟩
        exact ⟨t.unsupportedResourceCounts, ⟨t, ht, rfl⟩, h⟩
  · obtain ⟨hws, hwu⟩ := hWF
    cases s with
    | mk sc uc ts tu tn tr =>
      have h1 : mergeCounts none sc = sc := by
        cases sc with
        | none => rfl
        | some m =>
          show some (CountMap.mergeInto [] m) = some m
          rw [CountMap.mergeInto_nil_left m (by simpa using hws)]
      have h2 : mergeCounts none uc = uc := by
        cases uc with
        | none => rfl
        | some m =>
          show some (CountMap.mergeInto [] m) = some m
          rw [CountMap.mergeInto_nil_left m (by simpa using hwu)]
      have h3 : addIntPtrs none ts = ts := by cases ts <;> simp [addIntPtrs]
      have h4 : addIntPtrs none tu = tu := by cases tu <;> simp [addIntPtrs]
      have h5 : addIntPtrs none tn = tn := by cases tn <;> simp [addIntPtrs]
      have h6 : addIntPtrs none tr = tr := by cases tr <;> simp [addIntPtrs]
      show mergeSummariesStep emptySummary
        (some (Summary.mk sc uc ts tu tn tr)) = Summary.mk sc uc ts tu tn tr
      simp only [mergeSummariesStep, emptySummary]
      rw [h1, h2, h3, h4, h5, h6]
  · induction ss with
    | nil => intro _; rfl
    | cons o t ih =>
      intro hnil
      have ho : o = none := hnil o (List.mem_cons_self o t)
      subst ho
      show t.foldl mergeSummariesStep emptySummary = emptySummary
      exact ih (fun x hx => hnil x (List.mem_cons_of_mem _ hx))

def sWitOne : Summary :=
  ⟨some [("aws_instance", 1)], some [("unknown_type", 2)], some 3, none, none, some 5⟩

def sWitA : Summary := ⟨some [("x", 1)], none, some 1, none, none, none⟩

def sWitB : Summary := ⟨some [("y", 2)], none, some 4, none, none, none⟩

/-- Witness for `mergeSummaries_spec` at concrete inputs. -/
theorem mergeSummaries_spec_witness :
    Summary.WF sWitOne
    ∧ MergeSummaries [some sWitOne] = sWitOne
    ∧ MergeSummaries [none, none] = emptySummary
    ∧ (MergeSummaries [some sWitA, some sWitB]).supportedResourceCounts =
        some [("x", 1), ("y", 2)]
    ∧ CountMap.getD [("x", 1), ("y", 2)] "x" =
        (([some sWitA, some sWitB].filterMap id).map
          (fun s => CountMap.getD (s.supportedResourceCounts.getD []) "x")).sum :=
  ⟨by decide,
   mergeSummaries_spec.2.1 sWitOne (by decide),
   mergeSummaries_spec.2.2 [none, none] (by simp),
   by decide,
   (mergeSummaries_spec.1 [some sWitA, some sWitB]).2.2.2.2.2.2.1
     [("x", 1), ("y", 2)] (by decide) (by decide) "x"⟩

theorem foldl_costStep_some (rs : List Resource) (a b : Decimal) :
    rs.foldl costStep (some a, some b) =
      (some (a + (rs.filterMap (fun r => r.hourlyCost)).sum),
       some (b + (rs.filterMap (fun r => r.monthlyCost)).sum)) := by
  induction rs generalizing a b with
  | nil => simp
  | cons r t ih =>
    rw [List.foldl_cons]
    rcases hh : r.hourlyCost with _ | vh <;> rcases hm : r.monthlyCost with _ | vm <;>
      · show t.foldl costStep _ = _
        simp only [costStep, hh, hm]
        rw [ih]
        simp [List.filterMap_cons, hh, hm, add_assoc]

theorem calculateTotalCosts_pair (rs : List Resource) :
    calculateTotalCosts rs =
      (some ((rs.filterMap (fun r => r.hourlyCost)).sum),
       some ((rs.filterMap (fun r => r.monthlyCost)).sum)) := by
  unfold calculateTotalCosts
  rw [foldl_costStep_some]
  simp [decimalZero]

/-- Sums of projected costs are invariant under `sortResources`. -/
theorem filterMap_sum_sortResources (l : List Resource) (gk : String)
    (f : Resource → Option Decimal) :
    (((sortResources l gk).filterMap f).sum) = ((l.filterMap f).sum) :=
  ((List.perm_insertionSort _ l).filterMap f).sum_eq

/-- C1: the cost aggregator returns the pair (hourly total, monthly
total), each the sum of the corresponding non-nil resource costs, and on
the empty list both totals are a present zero (not nil); the breakdown
builder stores the hourly total in `TotalHourlyCost` and the monthly
total in `TotalMonthlyCost` (the swapped tuple destructuring in the
source is swapped back by the struct literal). -/
theorem calculateTotalCosts_spec :
    (∀ rs : List Resource,
      calculateTotalCosts rs =
        (some ((rs.filterMap (fun r => r.hourlyCost)).sum),
         some ((rs.filterMap (fun r => r.monthlyCost)).sum)))
    ∧ calculateTotalCosts [] = (some 0, some 0)
    ∧ (∀ srs : List SchemaResource,
        (outputBreakdown srs).totalHourlyCost =
          some (((outputBreakdown srs).resources.filterMap (fun r => r.hourlyCost)).sum)
        ∧ (outputBreakdown srs).totalMonthlyCost =
          some (((outputBreakdown srs).resources.filterMap
            (fun r => r.monthlyCost)).sum)) := by
  have hmain := calculateTotalCosts_pair
  refine ⟨hmain, by rw [hmain]; rfl, fun srs => ?_⟩
  constructor
  · show (calculateTotalCosts (sortResources _ "")).1 = _
    rw [hmain]
    rfl
  · show (calculateTotalCosts (sortResources _ "")).2 = _
    rw [hmain]
    rfl

/-! ## BuildSummary characterization -/

/-- A resource passes the provider filter of `BuildSummary`. -/
def passesFilter (hsp : String → Bool) (opts : SummaryOptions) (r : SchemaResource) : Bool :=
  opts.includeUnsupportedProviders || hsp r.resourceType

theorem buildSummaryStep_skip (hsp : String → Bool) (opts : SummaryOptions)
    (acc : SummaryAcc) (r : SchemaResource)
    (h : passesFilter hsp opts r = false) :
    buildSummaryStep hsp opts acc r = acc := by
  unfold buildSummaryStep
  rw [if_pos]
  unfold passesFilter at h
  simp only [Bool.or_eq_false_iff] at h
  simp [h.1, h.2]

theorem buildSummaryStep_noPass_first (hsp : String → Bool) (opts : SummaryOptions)
    (acc : SummaryAcc) (r : SchemaResource)
    (h : passesFilter hsp opts r = true) :
    buildSummaryStep hsp opts acc r =
      (if r.noPrice then
        { acc with totalNoPriceResources := acc.totalNoPriceResources + 1 }
      else if r.isSkipped then
        { acc with
          totalUnsupportedResources := acc.totalUnsupportedResources + 1
          unsupportedResourceCounts :=
            CountMap.addTo acc.unsupportedResourceCounts r.resourceType 1 }
      else
        { acc with
          totalSupportedResources := acc.totalSupportedResources + 1
          supportedResourceCounts :=
            CountMap.addTo acc.supportedResourceCounts r.resourceType 1 }) := by
  unfold buildSummaryStep
  rw [if_neg]
  unfold passesFilter at h
  rcases hiu : opts.includeUnsupportedProviders with _ | _ <;>
    rcases hh : hsp r.resourceType with _ | _ <;>
      simp_all

theorem buildSummary_fold_noPrice (hsp : String → Bool) (opts : SummaryOptions)
    (rs : List SchemaResource) (acc : SummaryAcc) :
    (rs.foldl (buildSummaryStep hsp opts) acc).totalNoPriceResources =
      acc.totalNoPriceResources +
        (rs.countP (fun r => passesFilter hsp opts r && r.noPrice) : Int) := by
  have hstep : ∀ (acc : SummaryAcc) (r : SchemaResource),
      (buildSummaryStep hsp opts acc r).totalNoPriceResources =
        acc.totalNoPriceResources +
          (if passesFilter hsp opts r && r.noPrice then 1 else 0) := by
    intro acc r
    by_cases hp : passesFilter hsp opts r = true
    · rw [buildSummaryStep_noPass_first hsp opts acc r hp, hp]
      by_cases hnp : r.noPrice = true
      · rw [if_pos hnp]
        simp [hnp]
      · rw [if_neg hnp]
        simp only [Bool.not_eq_true] at hnp
        rw [hnp]
        split <;> simp
    · simp only [Bool.not_eq_true] at hp
      rw [buildSummaryStep_skip hsp opts acc r hp, hp]
      simp
  induction rs generalizing acc with
  | nil => simp
  | cons r t ih =>
    rw [List.foldl_cons, ih, hstep, List.countP_cons]
    by_cases hp : (passesFilter hsp opts r && r.noPrice) = true <;>
      simp [hp, add_assoc, add_comm]

theorem buildSummary_fold_totalUnsupported (hsp : String → Bool) (opts : SummaryOptions)
    (rs : List SchemaResource) (acc : SummaryAcc) :
    (rs.foldl (buildSummaryStep hsp opts) acc).totalUnsupportedResources =
      acc.totalUnsupportedResources +
        (rs.countP
          (fun r => passesFilter hsp opts r && !r.noPrice && r.isSkipped) : Int) := by
  have hstep : ∀ (acc : SummaryAcc) (r : SchemaResource),
      (buildSummaryStep hsp opts acc r).totalUnsupportedResources =
        acc.totalUnsupportedResources +
          (if passesFilter hsp opts r && !r.noPrice && r.isSkipped then 1 else 0) := by
    intro acc r
    by_cases hp : passesFilter hsp opts r = true
    · rw [buildSummaryStep_noPass_first hsp opts acc r hp, hp]
      by_cases hnp : r.noPrice = true
      · rw [if_pos hnp, hnp]
        simp
      · rw [if_neg hnp]
        simp only [Bool.not_eq_true] at hnp
        rw [hnp]
        by_cases hsk : r.isSkipped = true
        · rw [if_pos hsk, hsk]
          simp
        · rw [if_neg hsk]
          simp only [Bool.not_eq_true] at hsk
          rw [hsk]
          simp
    · simp only [Bool.not_eq_true] at hp
      rw [buildSummaryStep_skip hsp opts acc r hp, hp]
      simp
  induction rs generalizing acc with
  | nil => simp
  | cons r t ih =>
    rw [List.foldl_cons, ih, hstep, List.countP_cons]
    by_cases hp : (passesFilter hsp opts r && !r.noPrice && r.isSkipped) = true <;>
      simp [hp, add_assoc, add_comm]

theorem buildSummary_fold_totalSupported (hsp : String → Bool) (opts : SummaryOptions)
    (rs : List SchemaResource) (acc : SummaryAcc) :
    (rs.foldl (buildSummaryStep hsp opts) acc).totalSupportedResources =
      acc.totalSupportedResources +
        (rs.countP
          (fun r => passesFilter hsp opts r && !r.noPrice && !r.isSkipped) : Int) := by
  have hstep : ∀ (acc : SummaryAcc) (r : SchemaResource),
      (buildSummaryStep hsp opts acc r).totalSupportedResources =
        acc.totalSupportedResources +
          (if passesFilter hsp opts r && !r.noPrice && !r.isSkipped then 1 else 0) := by
    intro acc r
    by_cases hp : passesFilter hsp opts r = true
    · rw [buildSummaryStep_noPass_first hsp opts acc r hp, hp]
      by_cases hnp : r.noPrice = true
      · rw [if_pos hnp, hnp]
        simp
      · rw [if_neg hnp]
        simp only [Bool.not_eq_true] at hnp
        rw [hnp]
        by_cases hsk : r.isSkipped = true
        · rw [if_pos hsk, hsk]
          simp
        · rw [if_neg hsk]
          simp only [Bool.not_eq_true] at hsk
          rw [hsk]
          simp
    · simp only [Bool.not_eq_true] at hp
      rw [buildSummaryStep_skip hsp opts acc r hp, hp]
      simp
  induction rs generalizing acc with
  | nil => simp
  | cons r t ih =>
    rw [List.foldl_cons, ih, hstep, List.countP_cons]
    by_cases hp : (passesFilter hsp opts r && !r.noPrice && !r.isSkipped) = true <;>
      simp [hp, add_assoc, add_comm]

theorem buildSummary_fold_unsupportedCounts (hsp : String → Bool) (opts : SummaryOptions)
    (rs : List SchemaResource) (acc : SummaryAcc) (t : String) :
    CountMap.getD (rs.foldl (buildSummaryStep hsp opts) acc).unsupportedResourceCounts t =
      CountMap.getD acc.unsupportedResourceCounts t +
        (rs.countP (fun r =>
          passesFilter hsp opts r && !r.noPrice && r.isSkipped && r.resourceType == t) : Int) := by
  have hstep : ∀ (acc : SummaryAcc) (r : SchemaResource),
      CountMap.getD (buildSummaryStep hsp opts acc r).unsupportedResourceCounts t =
        CountMap.getD acc.unsupportedResourceCounts t +
          (if passesFilter hsp opts r && !r.noPrice && r.isSkipped && r.resourceType == t
            then 1 else 0) := by
    intro acc r
    by_cases hp : passesFilter hsp opts r = true
    · rw [buildSummaryStep_noPass_first hsp opts acc r hp, hp]
      by_cases hnp : r.noPrice = true
      · rw [if_pos hnp, hnp]
        simp
      · rw [if_neg hnp]
        simp only [Bool.not_eq_true] at hnp
        rw [hnp]
        by_cases hsk : r.isSkipped = true
        · rw [if_pos hsk, hsk]
          show CountMap.getD (CountMap.addTo acc.unsupportedResourceCounts r.resourceType 1) t = _
          rw [CountMap.getD_addTo]
          by_cases ht : t = r.resourceType
          · rw [if_pos ht]
            have : (r.resourceType == t) = true := by simp [ht]
            simp [this]
          · rw [if_neg ht]
            have : (r.resourceType == t) = false := by
              simp only [beq_eq_false_iff_ne, ne_eq]
              exact fun hh => ht hh.symm
            simp [this]
        · rw [if_neg hsk]
          simp only [Bool.not_eq_true] at hsk
          rw [hsk]
          simp
    · simp only [Bool.not_eq_true] at hp
      rw [buildSummaryStep_skip hsp opts acc r hp, hp]
      simp
  induction rs generalizing acc with
  | nil => simp
  | cons r t2 ih =>
    rw [List.foldl_cons, ih, hstep, List.countP_cons]
    by_cases hp :
        (passesFilter hsp opts r && !r.noPrice && r.isSkipped && r.resourceType == t) = true <;>
      · simp [hp, add_assoc, add_comm]
        try ring

theorem buildSummary_fold_supportedCounts (hsp : String → Bool) (opts : SummaryOptions)
    (rs : List SchemaResource) (acc : SummaryAcc) (t : String) :
    CountMap.getD (rs.foldl (buildSummaryStep hsp opts) acc).supportedResourceCounts t =
      CountMap.getD acc.supportedResourceCounts t +
        (rs.countP (fun r =>
          passesFilter hsp opts r && !r.noPrice && !r.isSkipped && r.resourceType == t) : Int) := by
  have hstep : ∀ (acc : SummaryAcc) (r : SchemaResource),
      CountMap.getD (buildSummaryStep hsp opts acc r).supportedResourceCounts t =
        CountMap.getD acc.supportedResourceCounts t +
          (if passesFilter hsp opts r && !r.noPrice && !r.isSkipped && r.resourceType == t
            then 1 else 0) := by
    intro acc r
    by_cases hp : passesFilter hsp opts r = true
    · rw [buildSummaryStep_noPass_first hsp opts acc r hp, hp]
      by_cases hnp : r.noPrice = true
      · rw [if_pos hnp, hnp]
        simp
      · rw [if_neg hnp]
        simp only [Bool.not_eq_true] at hnp
        rw [hnp]
        by_cases hsk : r.isSkipped = true
        · rw [if_pos hsk, hsk]
          simp
        · rw [if_neg hsk]
          simp only [Bool.not_eq_true] at hsk
          rw [hsk]
          show CountMap.getD (CountMap.addTo acc.supportedResourceCounts r.resourceType 1) t = _
          rw [CountMap.getD_addTo]
          by_cases ht : t = r.resourceType
          · rw [if_pos ht]
            have : (r.resourceType == t) = true := by simp [ht]
            simp [this]
          · rw [if_neg ht]
            have : (r.resourceType == t) = false := by
              simp only [beq_eq_false_iff_ne, ne_eq]
              exact fun hh => ht hh.symm
            simp [this]
    · simp only [Bool.not_eq_true] at hp
      rw [buildSummaryStep_skip hsp opts acc r hp, hp]
      simp
  induction rs generalizing acc with
  | nil => simp
  | cons r t2 ih =>
    rw [List.foldl_cons, ih, hstep, List.countP_cons]
    by_cases hp :
        (passesFilter hsp opts r && !r.noPrice && !r.isSkipped && r.resourceType == t) = true <;>
      · simp [hp, add_assoc, add_comm]
        try ring

def skipNoPriceRes : SchemaResource :=
  ⟨"r1", "fancy_type", true, true, [], none, none, [], []⟩

/-- C3 counterexample: a resource marked both skipped and no-price is
classified as no-price, so it does not appear in
`UnsupportedResourceCounts` (the returned map is empty) nor in
`TotalUnsupportedResources`, contradicting the claim that every skipped
resource appears there exactly once. -/
theorem skipped_noPrice_counterexample :
    skipNoPriceRes.isSkipped = true
    ∧ (BuildSummary (fun _ => true) [skipNoPriceRes]
        ⟨true, []⟩).unsupportedResourceCounts = some []
    ∧ (BuildSummary (fun _ => true) [skipNoPriceRes]
        ⟨true, []⟩).totalUnsupportedResources = some 0
    ∧ (BuildSummary (fun _ => true) [skipNoPriceRes]
        ⟨true, []⟩).totalNoPriceResources = some 1 := by
  refine ⟨rfl, by decide, by decide, by decide⟩

/-- C3 (amended): a skipped resource never appears in the breakdown's
resource list and contributes nothing to its totals, and is never
counted in `SupportedResourceCounts` or `TotalSupportedResources`; it is
counted exactly once in `UnsupportedResourceCounts` under its resource
type and once in `TotalUnsupportedResources` provided it is not marked
no-price and is not excluded by the provider filter (a skipped resource
that is also no-price is counted as no-price instead, and one excluded
by the provider filter is not counted at all). -/
theorem skipped_resource_handling (hsp : String → Bool) (rs : List SchemaResource)
    (iu : Bool) (t : String) :
    (outputBreakdown rs).resources =
        sortResources ((rs.filter (fun r => !r.isSkipped)).map outputResource) ""
    ∧ (outputBreakdown rs).totalHourlyCost =
        some ((((rs.filter (fun r => !r.isSkipped)).map outputResource).filterMap
          (fun r => r.hourlyCost)).sum)
    ∧ (outputBreakdown rs).totalMonthlyCost =
        some ((((rs.filter (fun r => !r.isSkipped)).map outputResource).filterMap
          (fun r => r.monthlyCost)).sum)
    ∧ (BuildSummary hsp rs ⟨iu, []⟩).totalUnsupportedResources =
        some (rs.countP
          (fun r => (iu || hsp r.resourceType) && !r.noPrice && r.isSkipped) : Int)
    ∧ (BuildSummary hsp rs ⟨iu, []⟩).unsupportedResourceCounts.map
          (fun m => CountMap.getD m t) =
        some (rs.countP (fun r =>
          (iu || hsp r.resourceType) && !r.noPrice && r.isSkipped && r.resourceType == t) : Int)
    ∧ (BuildSummary hsp rs ⟨iu, []⟩).supportedResourceCounts.map
          (fun m => CountMap.getD m t) =
        some (rs.countP (fun r =>
          (iu || hsp r.resourceType) && !r.noPrice && !r.isSkipped && r.resourceType == t) : Int)
    ∧ (BuildSummary hsp rs ⟨iu, []⟩).totalSupportedResources =
        some (rs.countP
          (fun r => (iu || hsp r.resourceType) && !r.noPrice && !r.isSkipped) : Int) := by
  have hbs : BuildSummary hsp rs ⟨iu, []⟩ =
      { supportedResourceCounts :=
          some ((rs.foldl (buildSummaryStep hsp ⟨iu, []⟩)
            ⟨[], [], 0, 0, 0⟩).supportedResourceCounts)
        unsupportedResourceCounts :=
          some ((rs.foldl (buildSummaryStep hsp ⟨iu, []⟩)
            ⟨[], [], 0, 0, 0⟩).unsupportedResourceCounts)
        totalSupportedResources :=
          some ((rs.foldl (buildSummaryStep hsp ⟨iu, []⟩)
            ⟨[], [], 0, 0, 0⟩).totalSupportedResources)
        totalUnsupportedResources :=
          some ((rs.foldl (buildSummaryStep hsp ⟨iu, []⟩)
            ⟨[], [], 0, 0, 0⟩).totalUnsupportedResources)
        totalNoPriceResources :=
          some ((rs.foldl (buildSummaryStep hsp ⟨iu, []⟩)
            ⟨[], [], 0, 0, 0⟩).totalNoPriceResources)
        totalResources := some (rs.length : Int) } := by
    simp only [BuildSummary]
    rw [if_pos (by decide), if_pos (by decide), if_pos (by decide), if_pos (by decide),
      if_pos (by decide), if_pos (by decide)]
  refine ⟨rfl, ?_, ?_, ?_, ?_, ?_, ?_⟩
  · show (calculateTotalCosts (sortResources _ "")).1 = _
    rw [calculateTotalCosts_pair]
    show some _ = _
    rw [filterMap_sum_sortResources]
  · show (calculateTotalCosts (sortResources _ "")).2 = _
    rw [calculateTotalCosts_pair]
    show some _ = _
    rw [filterMap_sum_sortResources]
  · rw [hbs]
    show some _ = _
    rw [buildSummary_fold_totalUnsupported]
    show some ((0 : Int) + _) = _
    rw [zero_add]
    rfl
  · rw [hbs]
    show some (CountMap.getD _ t) = _
    rw [buildSummary_fold_unsupportedCounts]
    rw [CountMap.getD_nil, zero_add]
    rfl
  · rw [hbs]
    show some (CountMap.getD _ t) = _
    rw [buildSummary_fold_supportedCounts]
    rw [CountMap.getD_nil, zero_add]
    rfl
  · rw [hbs]
    show some _ = _
    rw [buildSummary_fold_totalSupported]
    show some ((0 : Int) + _) = _
    rw [zero_add]
    rfl

/-- C8: whenever the `TotalResources` field is populated it equals the
length of the raw input list (every resource seen is counted, including
resources excluded from classification by the provider filter); in
particular it is populated, with that value, when no field selection is
given. -/
theorem buildSummary_totalResources_raw_length (hsp : String → Bool)
    (rs : List SchemaResource) (opts : SummaryOptions) :
    ((BuildSummary hsp rs opts).totalResources = none ∨
      (BuildSummary hsp rs opts).totalResources = some (rs.length : Int))
    ∧ (BuildSummary hsp rs
        ⟨opts.includeUnsupportedProviders, []⟩).totalResources =
          some (rs.length : Int) := by
  constructor
  · simp only [BuildSummary]
    split
    · right
      rfl
    · left
      rfl
  · simp only [BuildSummary]
    rw [if_pos (by decide)]

/-- C10: the `TotalResources` summary field is selected by the
`OnlyFields` entry `"Total"`, not `"TotalResources"`: a non-empty field
list containing `"TotalResources"` but not `"Total"` leaves
`TotalResources` nil, while a list containing `"Total"` (or an empty
list) populates it with the raw input length. -/
theorem buildSummary_total_key_selector (hsp : String → Bool)
    (rs : List SchemaResource) (iu : Bool) (fields : List String)
    (h1 : contains fields "TotalResources" = true)
    (h2 : contains fields "Total" = false) :
    (BuildSummary hsp rs ⟨iu, fields⟩).totalResources = none
    ∧ (BuildSummary hsp rs ⟨iu, "Total" :: fields⟩).totalResources =
        some (rs.length : Int)
    ∧ (BuildSummary hsp rs ⟨iu, []⟩).totalResources = some (rs.length : Int) := by
  have hne : (fields.length == 0) = false := by
    cases fields with
    | nil => cases h1
    | cons a t => rfl
  refine ⟨?_, ?_, ?_⟩
  · simp only [BuildSummary]
    have hc : (contains fields "Total" || fields.length == 0) = false := by
      rw [h2, hne]
      rfl
    rw [if_neg (by simp [hc])]
  · simp only [BuildSummary]
    rw [if_pos (by simp [contains])]
  · simp only [BuildSummary]
    rw [if_pos (by decide)]

/-- Witness for `buildSummary_total_key_selector` at concrete inputs. -/
theorem buildSummary_total_key_selector_witness :
    contains ["TotalResources"] "TotalResources" = true
    ∧ contains ["TotalResources"] "Total" = false
    ∧ (BuildSummary (fun _ => true) [] ⟨false, ["TotalResources"]⟩).totalResources = none
    ∧ (BuildSummary (fun _ => true) []
        ⟨false, "Total" :: ["TotalResources"]⟩).totalResources = some 0
    ∧ (BuildSummary (fun _ => true) [] ⟨false, []⟩).totalResources = some 0 :=
  ⟨by decide, by decide,
   (buildSummary_total_key_selector (fun _ => true) [] false ["TotalResources"]
     (by decide) (by decide)).1,
   (buildSummary_total_key_selector (fun _ => true) [] false ["TotalResources"]
     (by decide) (by decide)).2.1,
   (buildSummary_total_key_selector (fun _ => true) [] false ["TotalResources"]
     (by decide) (by decide)).2.2⟩

/-- C7 counterexample: with `onlyFields = ["TotalResources"]` the
requested field `TotalResources` is nevertheless nil (it is selected by
the key `"Total"`), so "exactly the requested fields are non-nil" fails
as stated. -/
theorem buildSummary_onlyFields_counterexample :
    contains ["TotalResources"] "TotalResources" = true
    ∧ (BuildSummary (fun _ => true) []
        ⟨false, ["TotalResources"]⟩).totalResources = none := by
  refine ⟨by decide, by decide⟩

/-- C7 (amended): with a non-empty `onlyFields`, each summary field is
non-nil iff its selector key appears in the list; the selector key is
the field name for five fields, but `TotalResources` is selected by
`"Total"`.  In particular `onlyFields = ["TotalSupportedResources"]`
yields a summary with only `TotalSupportedResources` non-nil. -/
theorem buildSummary_onlyFields_spec (hsp : String → Bool)
    (rs : List SchemaResource) (iu : Bool) (f : String) (fs : List String) :
    ((BuildSummary hsp rs ⟨iu, f :: fs⟩).supportedResourceCounts.isSome =
        contains (f :: fs) "SupportedResourceCounts")
    ∧ ((BuildSummary hsp rs ⟨iu, f :: fs⟩).unsupportedResourceCounts.isSome =
        contains (f :: fs) "UnsupportedResourceCounts")
    ∧ ((BuildSummary hsp rs ⟨iu, f :: fs⟩).totalSupportedResources.isSome =
        contains (f :: fs) "TotalSupportedResources")
    ∧ ((BuildSummary hsp rs ⟨iu, f :: fs⟩).totalUnsupportedResources.isSome =
        contains (f :: fs) "TotalUnsupportedResources")
    ∧ ((BuildSummary hsp rs ⟨iu, f :: fs⟩).totalNoPriceResources.isSome =
        contains (f :: fs) "TotalNoPriceResources")
    ∧ ((BuildSummary hsp rs ⟨iu, f :: fs⟩).totalResources.isSome =
        contains (f :: fs) "Total")
    ∧ ((BuildSummary hsp rs
          ⟨iu, ["TotalSupportedResources"]⟩).totalSupportedResources ≠ none
        ∧ (BuildSummary hsp rs
            ⟨iu, ["TotalSupportedResources"]⟩).supportedResourceCounts = none
        ∧ (BuildSummary hsp rs
            ⟨iu, ["TotalSupportedResources"]⟩).unsupportedResourceCounts = none
        ∧ (BuildSummary hsp rs
            ⟨iu, ["TotalSupportedResources"]⟩).totalUnsupportedResources = none
        ∧ (BuildSummary hsp rs
            ⟨iu, ["TotalSupportedResources"]⟩).totalNoPriceResources = none
        ∧ (BuildSummary hsp rs
            ⟨iu, ["TotalSupportedResources"]⟩).totalResources = none) := by
  have hlen : ((f :: fs).length == 0) = false := rfl
  refine ⟨?_, ?_, ?_, ?_, ?_, ?_, ?_, ?_, ?_, ?_, ?_, ?_⟩
  · simp only [BuildSummary]
    rcases h : contains (f :: fs) "SupportedResourceCounts" with _ | _ <;>
      simp [h, hlen]
  · simp only [BuildSummary]
    rcases h : contains (f :: fs) "UnsupportedResourceCounts" with _ | _ <;>
      simp [h, hlen]
  · simp only [BuildSummary]
    rcases h : contains (f :: fs) "TotalSupportedResources" with _ | _ <;>
      simp [h, hlen]
  · simp only [BuildSummary]
    rcases h : contains (f :: fs) "TotalUnsupportedResources" with _ | _ <;>
      simp [h, hlen]
  · simp only [BuildSummary]
    rcases h : contains (f :: fs) "TotalNoPriceResources" with _ | _ <;>
      simp [h, hlen]
  · simp only [BuildSummary]
    rcases h : contains (f :: fs) "Total" with _ | _ <;>
      simp [h, hlen]
  · simp only [BuildSummary]
    rw [if_pos (by decide)]
    simp
  · simp only [BuildSummary]
    rw [if_neg (by decide)]
  · simp only [BuildSummary]
    rw [if_neg (by decide)]
  · simp only [BuildSummary]
    rw [if_neg (by decide)]
  · simp only [BuildSummary]
    rw [if_neg (by decide)]
  · simp only [BuildSummary]
    rw [if_neg (by decide)]

/-! ## Sorter characterization -/

/-- The (group value, name) key pair that drives the comparator, as a
lexicographically ordered pair. -/
def sortKeyL (gk : String) (r : Resource) : String ×ₗ String :=
  toLex (if gk == "" then "" else metaVal r.metadata gk, r.name)

theorem resourceLess_iff (gk : String) (a b : Resource) :
    resourceLess gk a b = true ↔ sortKeyL gk a < sortKeyL gk b := by
  unfold resourceLess sortKeyL
  rw [Prod.Lex.lt_iff]
  by_cases hg : (gk == "") = true
  · rw [if_pos hg, if_pos hg, if_pos hg, strLtB_iff]
    simp [lt_irrefl]
  · rw [if_neg hg, if_neg hg, if_neg hg]
    by_cases hm : metaVal a.metadata gk = metaVal b.metadata gk
    · rw [if_pos (by simpa using hm), strLtB_iff]
      simp [hm, lt_irrefl]
    · rw [if_neg (by simpa using hm), strLtB_iff]
      simp [hm]

theorem resourceLe_iff (gk : String) (a b : Resource) :
    resourceLe gk a b ↔ sortKeyL gk a ≤ sortKeyL gk b := by
  unfold resourceLe
  rw [← not_lt, ← resourceLess_iff]
  simp

theorem resourceLe_isTotal (gk : String) : IsTotal Resource (resourceLe gk) :=
  ⟨fun a b => by
    rw [resourceLe_iff, resourceLe_iff]
    exact le_total _ _⟩

theorem resourceLe_isTrans (gk : String) : IsTrans Resource (resourceLe gk) :=
  ⟨fun a b c hab hbc => by
    rw [resourceLe_iff] at hab hbc ⊢
    exact le_trans hab hbc⟩

theorem sortResources_sorted (l : List Resource) (gk : String) :
    List.Sorted (resourceLe gk) (sortResources l gk) := by
  letI := resourceLe_isTotal gk
  letI := resourceLe_isTrans gk
  exact List.sorted_insertionSort (resourceLe gk) l

/-- C6 (amended): sorting is idempotent and returns a permutation of the
input sorted by the (group-key value, name) pair: group values are
non-decreasing, and any two resources with equal group-key value appear
in non-decreasing name order.  (The order of two resources agreeing on
both group value and name is their insertion order, so the output is
fully determined by the key pair only when key pairs are distinct — see
the counterexample.) -/
theorem sortResources_spec (l : List Resource) (gk : String) :
    sortResources (sortResources l gk) gk = sortResources l gk
    ∧ (sortResources l gk).Perm l
    ∧ List.Sorted (resourceLe gk) (sortResources l gk)
    ∧ List.Pairwise
        (fun a b => metaVal a.metadata gk = metaVal b.metadata gk → a.name ≤ b.name)
        (sortResources l gk) := by
  refine ⟨?_, List.perm_insertionSort _ l, sortResources_sorted l gk, ?_⟩
  · exact (sortResources_sorted l gk).insertionSort_eq
  · apply List.Pairwise.imp ?_ (sortResources_sorted l gk)
    intro a b hab hmeta
    rw [resourceLe_iff] at hab
    unfold sortKeyL at hab
    rw [Prod.Lex.le_iff] at hab
    by_cases hg : (gk == "") = true
    · rcases hab with h | ⟨_, h⟩
      · rw [if_pos hg, if_pos hg] at h
        exact absurd h (lt_irrefl "")
      · exact h
    · rcases hab with h | ⟨_, h⟩
      · rw [if_neg hg, if_neg hg, hmeta] at h
        exact absurd h (lt_irrefl _)
      · exact h

def sortWitR1 : Resource := ⟨"x", [], [("g", "v")], some 1, none, [], []⟩

def sortWitR2 : Resource := ⟨"x", [], [("g", "v")], some 2, none, [], []⟩

/-- C6 counterexample: two distinct resources sharing both group-key
value and name keep their insertion order, so the output of the sorter
is not a function of the multiset of inputs alone: the same two
resources given in the two possible orders produce different outputs. -/
theorem sortResources_insertion_order_counterexample :
    sortWitR1.name = sortWitR2.name
    ∧ metaVal sortWitR1.metadata "g" = metaVal sortWitR2.metadata "g"
    ∧ (sortResources [sortWitR1, sortWitR2] "g").map (fun r => r.hourlyCost) =
        [some 1, some 2]
    ∧ (sortResources [sortWitR2, sortWitR1] "g").map (fun r => r.hourlyCost) =
        [some 2, some 1]
    ∧ ([sortWitR1, sortWitR2] : List Resource).Perm [sortWitR2, sortWitR1] :=
  ⟨rfl, rfl, by decide, by decide, List.Perm.swap sortWitR2 sortWitR1 []⟩

/-! ## Report assembler characterization -/

/-- Report-wide nil-vs-zero accumulation over a list of optional totals. -/
def accumulateCosts (l : List (Option Decimal)) : Option Decimal :=
  l.foldl accCost none

theorem foldl_accCost_some (l : List (Option Decimal)) (a : Decimal) :
    l.foldl accCost (some a) = some (a + (l.filterMap id).sum) := by
  induction l generalizing a with
  | nil => simp
  | cons o t ih =>
    cases o with
    | none =>
      rw [List.foldl_cons]
      show List.foldl accCost (some a) t = _
      rw [ih]
      simp
    | some v =>
      rw [List.foldl_cons]
      show List.foldl accCost (some (a + v)) t = _
      rw [ih]
      simp [add_assoc]

theorem accumulateCosts_eq (l : List (Option Decimal)) :
    accumulateCosts l =
      if l.all (fun o => o.isNone) then none else some ((l.filterMap id).sum) := by
  unfold accumulateCosts
  induction l with
  | nil => rfl
  | cons o t ih =>
    cases o with
    | none =>
      rw [List.foldl_cons]
      show List.foldl accCost none t = _
      rw [ih]
      simp
    | some v =>
      rw [List.foldl_cons]
      show List.foldl accCost (some (Option.getD none decimalZero + v)) t = _
      rw [foldl_accCost_some]
      simp only [List.all_cons, Option.isNone_some, Bool.false_and, Bool.false_eq_true,
        if_false, List.filterMap_cons_some]
      show some (decimalZero + v + _) = _
      rw [show decimalZero + v = v from zero_add v]
      simp [add_assoc]

theorem foldl_toOutputFormatStep (hsp : String → Bool) (ps : List Project)
    (acc : AssembleAcc) :
    (ps.foldl (toOutputFormatStep hsp) acc).totalHourlyCost =
      (ps.map (fun p => (outputBreakdown p.resources).totalHourlyCost)).foldl
        accCost acc.totalHourlyCost
    ∧ (ps.foldl (toOutputFormatStep hsp) acc).totalMonthlyCost =
      (ps.map (fun p => (outputBreakdown p.resources).totalMonthlyCost)).foldl
        accCost acc.totalMonthlyCost
    ∧ (ps.foldl (toOutputFormatStep hsp) acc).outResources =
      acc.outResources ++
        ((ps.map (fun p => (outputBreakdown p.resources).resources)).flatten)
    ∧ (ps.foldl (toOutputFormatStep hsp) acc).outProjectResults =
      acc.outProjectResults ++ ps.map (assembleProjectResult hsp) := by
  induction ps generalizing acc with
  | nil => refine ⟨rfl, rfl, by simp, by simp⟩
  | cons p t ih =>
    obtain ⟨ih1, ih2, ih3, ih4⟩ := ih (toOutputFormatStep hsp acc p)
    refine ⟨?_, ?_, ?_, ?_⟩
    · rw [List.foldl_cons, ih1]
      rfl
    · rw [List.foldl_cons, ih2]
      rfl
    · rw [List.foldl_cons, ih3]
      show acc.outResources ++ (outputBreakdown p.resources).resources ++ _ = _
      rw [List.map_cons, List.flatten_cons, List.append_assoc]
    · rw [List.foldl_cons, ih4]
      show acc.outProjectResults ++ [assembleProjectResult hsp p] ++ _ = _
      rw [List.map_cons, List.append_assoc]
      rfl

/-- C4: the report assembler computes the report-wide totals by folding
the per-project breakdown totals with the nil-vs-zero accumulation rule
(`accCost`): the running total stays nil while only nil totals are seen,
is seeded at zero by the first non-nil contribution, and a nil
breakdown total contributes nothing without making the result nil; in
particular accumulating a nil total and a total of 10 yields 10, not
nil. -/
theorem toOutputFormat_totals (hsp : String → Bool) (ps : List Project) :
    (ToOutputFormat hsp ps).totalHourlyCost =
        accumulateCosts (ps.map (fun p => (outputBreakdown p.resources).totalHourlyCost))
    ∧ (ToOutputFormat hsp ps).totalMonthlyCost =
        accumulateCosts (ps.map (fun p => (outputBreakdown p.resources).totalMonthlyCost))
    ∧ (∀ l : List (Option Decimal),
        accumulateCosts l =
          if l.all (fun o => o.isNone) then none else some ((l.filterMap id).sum))
    ∧ accumulateCosts [none, some 10] = some 10 := by
  refine ⟨?_, ?_, accumulateCosts_eq, ?_⟩
  · show (ps.foldl (toOutputFormatStep hsp) ⟨[], [], none, none⟩).totalHourlyCost = _
    rw [(foldl_toOutputFormatStep hsp ps _).1]
    rfl
  · show (ps.foldl (toOutputFormatStep hsp) ⟨[], [], none, none⟩).totalMonthlyCost = _
    rw [(foldl_toOutputFormatStep hsp ps _).2.1]
    rfl
  · rw [accumulateCosts_eq]
    simp

/-- C5: the report's backward-compatible flat `Resources` list is the
concatenation of all projects' current-breakdown resource lists,
re-sorted by name only (empty grouping key); it is sorted by name. -/
theorem toOutputFormat_flat_resources (hsp : String → Bool) (ps : List Project) :
    (ToOutputFormat hsp ps).resources =
      sortResources
        (((ToOutputFormat hsp ps).projectResults.map
          (fun pr => (pr.breakdown.map (fun b => b.resources)).getD [])).flatten) ""
    ∧ List.Sorted (resourceLe "") (ToOutputFormat hsp ps).resources := by
  have hres : (ToOutputFormat hsp ps).projectResults = ps.map (assembleProjectResult hsp) := by
    show (ps.foldl (toOutputFormatStep hsp) ⟨[], [], none, none⟩).outProjectResults = _
    rw [(foldl_toOutputFormatStep hsp ps _).2.2.2]
    rfl
  constructor
  · show sortResources
        (ps.foldl (toOutputFormatStep hsp) ⟨[], [], none, none⟩).outResources "" = _
    rw [(foldl_toOutputFormatStep hsp ps _).2.2.1, hres]
    rw [List.map_map]
    rfl
  · exact sortResources_sorted _ ""

/-! ## Unsupported-resources message characterization -/

theorem strFoldlAppend (l : List String) (a : String) :
    l.foldl (fun x y => x ++ y) a = a ++ String.join l := by
  induction l generalizing a with
  | nil => exact (String.append_empty a).symm
  | cons x t ih =>
    rw [List.foldl_cons, ih]
    have hx : String.join (x :: t) = x ++ String.join t := by
      show List.foldl (fun x y => x ++ y) ("" ++ x) t = _
      rw [String.empty_append, ih]
    rw [hx, String.append_assoc]

theorem strJoinCons (x : String) (l : List String) :
    String.join (x :: l) = x ++ String.join l := by
  show List.foldl (fun x y => x ++ y) ("" ++ x) l = _
  rw [String.empty_append, strFoldlAppend]

theorem foldl_msg_append (l : List (String × Int)) (a : String) :
    l.foldl (fun m p => m ++ "\n" ++ toString p.2 ++ " x " ++ p.1) a =
      a ++ String.join (l.map (fun p => "\n" ++ toString p.2 ++ " x " ++ p.1)) := by
  induction l generalizing a with
  | nil => exact (String.append_empty a).symm
  | cons p t ih =>
    rw [List.foldl_cons, ih, List.map_cons, strJoinCons]
    simp [String.append_assoc]

/-- C9: structure of the derived unsupported-resource-types message:
singular phrasing iff exactly one unsupported type, plural otherwise;
with the show-skipped flag the per-type enumeration is appended and the
rerun hint omitted, without it the hint is appended; the fixed
call-to-action line always follows. -/
theorem unsupportedResourcesMessage_spec (r : Root) (showSkipped : Bool)
    (counts : CountMap)
    (h1 : (MergedSummary r).unsupportedResourceCounts = some counts)
    (h2 : counts ≠ []) :
    unsupportedResourcesMessage r showSkipped =
      toString counts.length ++ " " ++
        (if counts.length = 1 then
          "resource type wasn\x27t estimated as it\x27s not supported yet"
        else
          "resource types weren\x27t estimated as they\x27re not supported yet") ++
        (if showSkipped then "" else ", rerun with --show-skipped to see") ++
        ".\n" ++ watchStarLine ++
        (if showSkipped then
          String.join (counts.map (fun p => "\n" ++ toString p.2 ++ " x " ++ p.1))
        else "") := by
  unfold unsupportedResourcesMessage
  simp only [h1]
  have hlen0 : (counts.length == 0) = false := by
    simp only [beq_eq_false_iff_ne, ne_eq]
    exact fun hh => h2 (List.length_eq_zero.mp hh)
  rw [if_neg (by simp [hlen0])]
  simp only [beq_iff_eq]
  cases showSkipped with
  | false => simp
  | true =>
    simp only [if_pos rfl]
    rw [foldl_msg_append]
    simp

def msgWitRoot : Root :=
  { version := "0.1"
    resources := []
    totalHourlyCost := none
    totalMonthlyCost := none
    runID := ""
    projectResults :=
      [⟨"p", none, none, none, none,
        some ⟨none, some [("aws_x", 2), ("aws_y", 1)], none, none, none, none⟩,
        none⟩] }

/-- Witness for `unsupportedResourcesMessage_spec` at a concrete report. -/
theorem unsupportedResourcesMessage_spec_witness :
    (MergedSummary msgWitRoot).unsupportedResourceCounts =
        some [("aws_x", 2), ("aws_y", 1)]
    ∧ ([("aws_x", 2), ("aws_y", 1)] : CountMap) ≠ []
    ∧ unsupportedResourcesMessage msgWitRoot true =
        toString ([("aws_x", 2), ("aws_y", 1)] : CountMap).length ++ " " ++
          (if ([("aws_x", 2), ("aws_y", 1)] : CountMap).length = 1 then
            "resource type wasn\x27t estimated as it\x27s not supported yet"
          else
            "resource types weren\x27t estimated as they\x27re not supported yet") ++
          (if (true : Bool) then "" else ", rerun with --show-skipped to see") ++
          ".\n" ++ watchStarLine ++
          (if (true : Bool) then
            String.join (([("aws_x", 2), ("aws_y", 1)] : CountMap).map
              (fun p => "\n" ++ toString p.2 ++ " x " ++ p.1))
          else "")
    ∧ unsupportedResourcesMessage msgWitRoot false =
        toString ([("aws_x", 2), ("aws_y", 1)] : CountMap).length ++ " " ++
          (if ([("aws_x", 2), ("aws_y", 1)] : CountMap).length = 1 then
            "resource type wasn\x27t estimated as it\x27s not supported yet"
          else
            "resource types weren\x27t estimated as they\x27re not supported yet") ++
          (if (false : Bool) then "" else ", rerun with --show-skipped to see") ++
          ".\n" ++ watchStarLine ++
          (if (false : Bool) then
            String.join (([("aws_x", 2), ("aws_y", 1)] : CountMap).map
              (fun p => "\n" ++ toString p.2 ++ " x " ++ p.1))
          else "") :=
  ⟨by decide, by decide,
   unsupportedResourcesMessage_spec msgWitRoot true
     [("aws_x", 2), ("aws_y", 1)] (by decide) (by decide),
   unsupportedResourcesMessage_spec msgWitRoot false
     [("aws_x", 2), ("aws_y", 1)] (by decide) (by decide)⟩

end Infracost
